import Mathlib

/-!
Verification of the deterministic generation and invariant validation engine
of the alphacore repository.

Sources embedded here:
  * src/modules/generation/terraform/providers/gcp/helpers.py
    (alphabets, `new_suffix`, `_rng_from_seed`, `_random_string`,
    `_random_name`, `_random_name_with_range`, `_avoid_prefix`,
    `rfc1035_name`, `bucket_name`, `service_account_id`, `secret_id`,
    `pubsub_topic_id`, `pubsub_subscription_id`).
  * modules/evaluation/validation/resource_validators.py is not shipped in
    src/; its `_apply_comparison_rule` is modelled from the specification,
    constrained by the repository tests in
    src/modules/tests/test_flexible_naming.py.
  * modules/generation/terraform/resource_templates.py is not shipped in
    src/; `ResourceTemplate` and `pick_naming_rule` are modelled from the
    specification and the usage in
    src/modules/generation/terraform/providers/gcp/resources/service_account.py.

Strings are embedded as `List Char`.  Python's `random.Random` (a Mersenne
Twister) is abstracted as a deterministic stream: a seed string plus a draw
counter, hashed to a number per draw.  Every theorem below depends only on
determinism of the stream and on range membership of draws, never on the
numeric values drawn.  Fallible Python code (raised exceptions) is embedded
with `Except String`.
-/

/-- Helper turning a Lean string literal into the `List Char` representation
used throughout this development. -/
def chars (s : String) : List Char := s.toList

/-- Alphabet `_LOWER` of helpers.py. -/
def _LOWER : List Char := chars ("abcdefghijklmnopqrstuvwxyz")

/-- Alphabet `_DIGITS` of helpers.py. -/
def _DIGITS : List Char := chars ("0123456789")

/-- Alphabet `_LOWER_DIGITS` of helpers.py. -/
def _LOWER_DIGITS : List Char := _LOWER ++ _DIGITS

/-- Alphabet `_LOWER_DIGITS_DASH` of helpers.py. -/
def _LOWER_DIGITS_DASH : List Char := _LOWER_DIGITS ++ chars ("-")

/-- Alphabet `_LOWER_DIGITS_DASH_UNDERSCORE` of helpers.py. -/
def _LOWER_DIGITS_DASH_UNDERSCORE : List Char := _LOWER_DIGITS ++ chars ("-_")

/-- Alphabet `_PUBSUB_BODY` of helpers.py. -/
def _PUBSUB_BODY : List Char := _LOWER_DIGITS ++ chars ("-_.~+%")

/-- Alphabet `_SINK_BODY` of helpers.py. -/
def _SINK_BODY : List Char := _LOWER_DIGITS ++ chars ("-_.")

/-- Abstraction of Python's `random.Random`: a private deterministic stream
identified by the seed string it was constructed from, together with a
counter of draws already consumed. -/
structure RNG where
  seed : List Char
  counter : Nat
deriving DecidableEq

/-- Numeric code of a seed string, used by the abstract stream. -/
def strCode (s : List Char) : Nat := s.foldl (fun a c => a * 131 + c.toNat) 7

/-- The pseudo-random number produced by the next draw of a stream.  Stands
in for the Mersenne Twister output; only determinism matters below. -/
def nextNat (r : RNG) : Nat :=
  (strCode r.seed * 2654435761 + r.counter * 2246822519 + 3266489917) % 4294967296

/-- Advance a stream past one draw. -/
def step (r : RNG) : RNG := RNG.mk r.seed (r.counter + 1)

/-- Embeds `_rng_from_seed` of helpers.py: `random.Random(seed)` seeded from
a (namespaced) key string. -/
def _rng_from_seed (seed : List Char) : RNG := RNG.mk seed 0

/-- Embeds Python's `rng.choice(seq)`: one uniform draw from a sequence;
raises `IndexError` on an empty sequence. -/
def choice {α : Type} (r : RNG) : List α → Except String (α × RNG)
  | [] => Except.error ("Cannot choose from an empty sequence")
  | a :: t =>
    Except.ok ((a :: t).get ⟨nextNat r % (a :: t).length, Nat.mod_lt _ (Nat.succ_pos _)⟩, step r)

/-- Embeds Python's `rng.randint(a, b)`: one uniform draw from the inclusive
range `[a, b]`; raises `ValueError` when the range is empty. -/
def randint (r : RNG) (a b : Int) : Except String (Int × RNG) :=
  if a ≤ b then Except.ok (a + (nextNat r : Int) % (b - a + 1), step r)
  else Except.error ("empty range for randrange")

/-- Embeds `_random_string` of helpers.py: `length` independent choices from
`alphabet`, joined in draw order. -/
def _random_string (r : RNG) (n : Nat) (alphabet : List Char) : Except String (List Char × RNG) :=
  match n with
  | 0 => Except.ok ([], r)
  | Nat.succ k =>
    match choice r alphabet with
    | Except.error e => Except.error e
    | Except.ok (c, r1) =>
      match _random_string r1 k alphabet with
      | Except.error e => Except.error e
      | Except.ok (rest, r2) => Except.ok (c :: rest, r2)

/-- Embeds Python's falsy-string fallback `x or y` for `str` values. -/
def strOr (x y : List Char) : List Char := if x = [] then y else x

/-- Embeds Python's `x or y` where `x : Optional[str]`: `None` and the empty
string both fall back to `y`. -/
def optOr (x : Option (List Char)) (y : List Char) : List Char :=
  match x with
  | none => y
  | some s => strOr s y

/-- Embeds `sorted(set(a) & set(b))` of `_random_name` (length-1 branch):
the distinct characters common to both alphabets.  Python returns them
sorted; this model keeps first-occurrence order of `a`, which preserves
determinism and membership, the only facts used below. -/
def commonChars (a b : List Char) : List Char := (a.filter (fun c => b.contains c)).dedup

/-- The pool the single character is drawn from in the length-1 branch of
`_random_name`: the common characters of the start and end alphabets,
falling back to the start alphabet when that intersection is empty. -/
def pool1Of (start_chars : List Char) (end_chars : Option (List Char)) : List Char :=
  strOr (commonChars start_chars (optOr end_chars start_chars)) start_chars

/-- The alphabet the final character is drawn from in the length-2 and
length-3-or-more branches of `_random_name`: `end_chars or body_chars`. -/
def ebOf (end_chars : Option (List Char)) (body_chars : List Char) : List Char :=
  optOr end_chars body_chars

/-- Embeds `_random_name` of helpers.py.  Raises for non-positive lengths;
length 1 draws one character from the start-and-end intersection (falling
back to the start alphabet); length 2 draws a start character and an
end-or-body character; otherwise draws a start character, a body interior,
and an end-or-body character. -/
def _random_name (r : RNG) (length : Int) (start_chars body_chars : List Char)
    (end_chars : Option (List Char)) : Except String (List Char × RNG) :=
  if length ≤ 0 then Except.error ("length must be positive")
  else if length = 1 then
    match choice r (pool1Of start_chars end_chars) with
    | Except.error e => Except.error e
    | Except.ok (c, r1) => Except.ok ([c], r1)
  else if length = 2 then
    match choice r start_chars with
    | Except.error e => Except.error e
    | Except.ok (c1, r1) =>
      match choice r1 (ebOf end_chars body_chars) with
      | Except.error e => Except.error e
      | Except.ok (c2, r2) => Except.ok ([c1, c2], r2)
  else
    match choice r start_chars with
    | Except.error e => Except.error e
    | Except.ok (c1, r1) =>
      match _random_string r1 (length - 2).toNat body_chars with
      | Except.error e => Except.error e
      | Except.ok (mid, r2) =>
        match choice r2 (ebOf end_chars body_chars) with
        | Except.error e => Except.error e
        | Except.ok (cl, r3) => Except.ok (c1 :: (mid ++ [cl]), r3)

/-- Embeds `_random_name_with_range` of helpers.py: draw a length uniformly
in `[min_len, max_len]`, then generate a name of that length. -/
def _random_name_with_range (r : RNG) (min_len max_len : Int)
    (start_chars body_chars : List Char) (end_chars : Option (List Char)) :
    Except String (List Char × RNG) :=
  match randint r min_len max_len with
  | Except.error e => Except.error e
  | Except.ok (length, r1) => _random_name r1 length start_chars body_chars end_chars

/-- Embeds `_avoid_prefix` of helpers.py: when `name` starts with
`forbidden`, replace its first character by a start character other than
the first character of `forbidden` (falling back to the whole start
alphabet when no other character exists).  Indexing `forbidden[0]` raises
on an empty `forbidden`, and `rng.choice` raises on an empty pool. -/
def _avoid_prefix (name forbidden : List Char) (r : RNG) (start_chars : List Char) :
    Except String (List Char × RNG) :=
  if forbidden.isPrefixOf name then
    match forbidden with
    | [] => Except.error ("string index out of range")
    | f0 :: _ =>
      match choice r (strOr (start_chars.filter (fun c => c != f0)) start_chars) with
      | Except.error e => Except.error e
      | Except.ok (c, r1) => Except.ok (c :: name.drop 1, r1)
  else Except.ok (name, r)

/-- Embeds `rfc1035_name` of helpers.py with an explicit stream (the Python
default draws the process-wide stream; default bounds are 6 and 18). -/
def rfc1035_name (r : RNG) (min_len max_len : Int) : Except String (List Char × RNG) :=
  _random_name_with_range r min_len max_len _LOWER _LOWER_DIGITS_DASH (some _LOWER_DIGITS)

/-- Ambient process state: the process-wide system random stream
(`_SYSTEM_RANDOM` / the entropy source behind `secrets`). -/
structure World where
  sys : RNG
deriving DecidableEq

/-- Hexadecimal digits produced by `secrets.token_hex`. -/
def hexAlphabet : List Char := chars ("0123456789abcdef")

/-- Draw `n` lowercase hexadecimal characters from a stream. -/
def token_hex_draw (r : RNG) : Nat → List Char × RNG
  | 0 => ([], r)
  | Nat.succ k =>
    (hexAlphabet.get ⟨nextNat r % 16, Nat.mod_lt _ (Nat.succ_pos _)⟩ ::
      (token_hex_draw (step r) k).1,
     (token_hex_draw (step r) k).2)

/-- Model of Python's `secrets.token_hex(nbytes)`: `2 * nbytes` lowercase
hexadecimal characters drawn from the ambient entropy source. -/
def token_hex (w : World) (nbytes : Nat) : List Char × World :=
  ((token_hex_draw w.sys (2 * nbytes)).1, World.mk (token_hex_draw w.sys (2 * nbytes)).2)

/-- Embeds `new_suffix` of helpers.py: `secrets.token_hex(max(1, length // 2))`.
Python `//` is floor division, embedded as `Int.fdiv`. -/
def new_suffix (w : World) (length : Int) : List Char × World :=
  token_hex w (max 1 (Int.fdiv length 2)).toNat

/-- Propagate an exception, otherwise keep only the drawn name (the Python
callers return the name and drop the stream). -/
def exfst (x : Except String (List Char × RNG)) : Except String (List Char) :=
  match x with
  | Except.error e => Except.error e
  | Except.ok (name, _) => Except.ok name

/-- Propagate an exception, otherwise continue with the drawn name and the
advanced stream. -/
def exmap2 (x : Except String (List Char × RNG))
    (f : List Char → RNG → Except String (List Char)) : Except String (List Char) :=
  match x with
  | Except.error e => Except.error e
  | Except.ok (name, r1) => f name r1

/-- Body of `bucket_name` of helpers.py: the stream is seeded privately
from the namespaced key "bucket:suffix" and the drawn name returned. -/
def bucket_name_result (suffix : List Char) : Except String (List Char) :=
  exfst (_random_name_with_range (_rng_from_seed (chars ("bucket:") ++ suffix))
    10 20 _LOWER _LOWER_DIGITS_DASH (some _LOWER_DIGITS))

/-- Embeds `bucket_name` of helpers.py: a deterministic-mode generator.  The
ambient world is threaded to make explicit that the body never reads nor
advances it. -/
def bucket_name (w : World) (suffix : List Char) : Except String (List Char) × World :=
  (bucket_name_result suffix, w)

/-- Body of `service_account_id` of helpers.py, seeded from
"service-account:suffix". -/
def service_account_id_result (suffix : List Char) : Except String (List Char) :=
  exfst (_random_name_with_range (_rng_from_seed (chars ("service-account:") ++ suffix))
    8 20 _LOWER _LOWER_DIGITS_DASH (some _LOWER_DIGITS))

/-- Embeds `service_account_id` of helpers.py: deterministic-mode, reads no
ambient state. -/
def service_account_id (w : World) (suffix : List Char) : Except String (List Char) × World :=
  (service_account_id_result suffix, w)

/-- Body of `secret_id` of helpers.py, seeded from "secret:suffix". -/
def secret_id_result (suffix : List Char) : Except String (List Char) :=
  exfst (_random_name_with_range (_rng_from_seed (chars ("secret:") ++ suffix))
    8 24 _LOWER _LOWER_DIGITS_DASH_UNDERSCORE (some _LOWER_DIGITS))

/-- Embeds `secret_id` of helpers.py: deterministic-mode, reads no ambient
state. -/
def secret_id (w : World) (suffix : List Char) : Except String (List Char) × World :=
  (secret_id_result suffix, w)

/-- Body of `pubsub_topic_id` of helpers.py, seeded from
"pubsub-topic:suffix", with the reserved prefix "goog" avoided. -/
def pubsub_topic_id_result (suffix : List Char) : Except String (List Char) :=
  exmap2 (_random_name_with_range (_rng_from_seed (chars ("pubsub-topic:") ++ suffix))
      6 20 _LOWER _PUBSUB_BODY (some _LOWER_DIGITS))
    (fun name r1 => exfst ( _avoid_prefix name (chars ("goog")) r1 _LOWER))

/-- Embeds `pubsub_topic_id` of helpers.py: deterministic-mode, reads no
ambient state. -/
def pubsub_topic_id (w : World) (suffix : List Char) : Except String (List Char) × World :=
  (pubsub_topic_id_result suffix, w)

/-- Body of `pubsub_subscription_id` of helpers.py, seeded from
"pubsub-subscription:suffix", with the reserved prefix "goog" avoided. -/
def pubsub_subscription_id_result (suffix : List Char) : Except String (List Char) :=
  exmap2 (_random_name_with_range (_rng_from_seed (chars ("pubsub-subscription:") ++ suffix))
      6 20 _LOWER _PUBSUB_BODY (some _LOWER_DIGITS))
    (fun name r1 => exfst ( _avoid_prefix name (chars ("goog")) r1 _LOWER))

/-- Embeds `pubsub_subscription_id` of helpers.py: deterministic-mode,
reads no ambient state. -/
def pubsub_subscription_id (w : World) (suffix : List Char) : Except String (List Char) × World :=
  (pubsub_subscription_id_result suffix, w)

/-- The three comparison rules of the validation engine. -/
inductive Rule where
  | exact_match
  | starts_with
  | ends_with
deriving DecidableEq

/-- Final-segment reduction worker: keeps the characters after the last
slash (the last element of Python's `value.split("/")`). -/
def lastSegAux (acc : List Char) : List Char → List Char
  | [] => acc
  | c :: rest => if c = '/' then lastSegAux [] rest else lastSegAux (acc ++ [c]) rest

/-- Final-segment reduction applied before every comparison:
`value.split("/")[-1] if "/" in value else value`.  A value without a slash
reduces to itself. -/
def lastSegment (s : List Char) : List Char := lastSegAux [] s

/-- Modelled from the spec: `_apply_comparison_rule` of
modules/evaluation/validation/resource_validators.py, which is absent from
src/.  Missing-value semantics and symmetric final-segment reduction follow
the specification (both-missing passes only `exact_match`; any other
missing combination fails; both sides are reduced to their last
slash-delimited segment before comparison).  For `starts_with` and
`ends_with`, the repository tests shipped in
src/modules/tests/test_flexible_naming.py (`test_starts_with_failure`,
`test_ends_with_failure`) additionally require the reduced actual value to
differ from the reduced expected value, and this model follows those
tests. -/
def _apply_comparison_rule (actual expected : Option (List Char)) (rule : Rule) : Bool :=
  match actual, expected with
  | none, none =>
    match rule with
    | Rule.exact_match => true
    | _ => false
  | none, some _ => false
  | some _, none => false
  | some a, some e =>
    let av := lastSegment a
    let ev := lastSegment e
    match rule with
    | Rule.exact_match => av == ev
    | Rule.starts_with => ev.isPrefixOf av && av != ev
    | Rule.ends_with => ev.isSuffixOf av && av != ev

/-- Modelled from the spec: the `ResourceTemplate` record of
modules/generation/terraform/resource_templates.py, which is absent from
src/.  The builder function is omitted; no claim below depends on it.  The
Python default for `naming_rules` is the one-element tuple `exact_match`. -/
structure ResourceTemplate where
  key : List Char
  kind : List Char
  provides : List (List Char)
  base_hints : List (List Char)
  weight : Int
  naming_rules : List Rule

/-- Modelled from the spec: `pick_naming_rule(template, rng)` of
modules/generation/terraform/resource_templates.py, which is absent from
src/: one uniform draw from the template's `naming_rules`. -/
def pick_naming_rule (t : ResourceTemplate) (r : RNG) : Except String (Rule × RNG) :=
  choice r t.naming_rules

/-- The service-account template registered by `get_templates` of
src/modules/generation/terraform/providers/gcp/resources/service_account.py. -/
def service_account_template : ResourceTemplate :=
  ResourceTemplate.mk (chars ("service_account")) (chars ("service account"))
    [chars ("service_account")]
    [chars ("Expose a fresh service account for future bindings.")] 1
    [Rule.starts_with, Rule.ends_with, Rule.exact_match]

/-! ## Helper lemmas -/

theorem choice_ok {α : Type} (r : RNG) (l : List α) (h : l ≠ []) :
    ∃ x r1, choice r l = Except.ok (x, r1) ∧ x ∈ l := by
  cases l with
  | nil => exact absurd rfl h
  | cons a t => exact ⟨_, _, rfl, List.get_mem _ _ _⟩

theorem randint_ok (r : RNG) (a b : Int) (hab : a ≤ b) :
    ∃ v r1, randint r a b = Except.ok (v, r1) ∧ a ≤ v ∧ v ≤ b := by
  refine ⟨a + (nextNat r : Int) % (b - a + 1), step r, ?_, ?_, ?_⟩
  · simp [randint, hab]
  · have h0 : 0 ≤ (nextNat r : Int) % (b - a + 1) := Int.emod_nonneg _ (by omega)
    omega
  · have h1 : (nextNat r : Int) % (b - a + 1) < b - a + 1 := Int.emod_lt_of_pos _ (by omega)
    have h0 : 0 ≤ (nextNat r : Int) % (b - a + 1) := Int.emod_nonneg _ (by omega)
    omega

theorem random_string_ok (alphabet : List Char) (h : alphabet ≠ []) :
    ∀ (n : Nat) (r : RNG), ∃ s r1, _random_string r n alphabet = Except.ok (s, r1) ∧
      s.length = n ∧ ∀ c ∈ s, c ∈ alphabet := by
  intro n
  induction n with
  | zero => intro r; exact ⟨[], r, rfl, rfl, by simp⟩
  | succ k ih =>
    intro r
    obtain ⟨c, r1, hc, hcm⟩ := choice_ok r alphabet h
    obtain ⟨rest, r2, hrest, hlen, hmem⟩ := ih r1
    refine ⟨c :: rest, r2, ?_, by simp [hlen], ?_⟩
    · simp [_random_string, hc, hrest]
    · intro x hx
      rcases List.mem_cons.mp hx with hx | hx
      · exact hx ▸ hcm
      · exact hmem x hx

theorem commonChars_subset (a b : List Char) : commonChars a b ⊆ a := by
  intro c hc
  have h1 : c ∈ a.filter (fun c => b.contains c) := List.dedup_subset _ hc
  exact List.mem_of_mem_filter h1

theorem pool1Of_subset (start_chars : List Char) (end_chars : Option (List Char)) :
    pool1Of start_chars end_chars ⊆ start_chars := by
  unfold pool1Of strOr
  split
  · exact fun c hc => hc
  · exact commonChars_subset _ _

theorem pool1Of_ne (start_chars : List Char) (end_chars : Option (List Char))
    (h : start_chars ≠ []) : pool1Of start_chars end_chars ≠ [] := by
  unfold pool1Of strOr
  split
  · exact h
  · assumption

theorem ebOf_ne (end_chars : Option (List Char)) (body_chars : List Char)
    (h : body_chars ≠ []) : ebOf end_chars body_chars ≠ [] := by
  unfold ebOf optOr strOr
  cases end_chars with
  | none => exact h
  | some e =>
    dsimp only
    split
    · exact h
    · assumption

theorem lastSegAux_no_slash (l : List Char) :
    ∀ acc, '/' ∉ acc → '/' ∉ lastSegAux acc l := by
  induction l with
  | nil => intro acc h; exact h
  | cons c rest ih =>
    intro acc h
    by_cases hc : c = '/'
    · simp only [lastSegAux]
      rw [if_pos hc]
      exact ih [] (by simp)
    · simp only [lastSegAux]
      rw [if_neg hc]
      refine ih (acc ++ [c]) ?_
      intro hm
      rcases List.mem_append.mp hm with hm | hm
      · exact h hm
      · exact hc (List.mem_singleton.mp hm).symm

theorem lastSegAux_of_no_slash (l : List Char) :
    ∀ acc, '/' ∉ l → lastSegAux acc l = acc ++ l := by
  induction l with
  | nil => intro acc _; simp [lastSegAux]
  | cons c rest ih =>
    intro acc h
    have hc : c ≠ '/' := fun heq => h (heq ▸ List.mem_cons_self _ _)
    simp only [lastSegAux]
    rw [if_neg hc, ih (acc ++ [c]) (fun hm => h (List.mem_cons_of_mem _ hm))]
    simp

theorem lastSegment_no_slash (s : List Char) : '/' ∉ lastSegment s :=
  lastSegAux_no_slash s [] (by simp)

theorem lastSegment_idem (s : List Char) : lastSegment (lastSegment s) = lastSegment s := by
  calc lastSegment (lastSegment s) = lastSegAux [] (lastSegment s) := rfl
  _ = [] ++ lastSegment s := lastSegAux_of_no_slash (lastSegment s) [] (lastSegment_no_slash s)
  _ = lastSegment s := by simp

theorem random_name_ok (r : RNG) (length : Int) (start_chars body_chars : List Char)
    (end_chars : Option (List Char)) (hL : 0 < length) (hs : start_chars ≠ [])
    (hb : body_chars ≠ []) :
    ∃ name r1, _random_name r length start_chars body_chars end_chars = Except.ok (name, r1) ∧
      (name.length : Int) = length ∧
      (∀ c, name.head? = some c → c ∈ start_chars) ∧
      (∀ c ∈ (name.drop 1).dropLast, c ∈ body_chars) ∧
      (1 < name.length → ∀ c, name.getLast? = some c → c ∈ ebOf end_chars body_chars) ∧
      (name.length = 1 → ∀ c, name.head? = some c → c ∈ pool1Of start_chars end_chars) := by
  have h0 : ¬ length ≤ 0 := by omega
  by_cases h1 : length = 1
  · obtain ⟨c, r1, hc, hcm⟩ := choice_ok r (pool1Of start_chars end_chars) (pool1Of_ne _ _ hs)
    refine ⟨[c], r1, ?_, by simp [h1], ?_, ?_, ?_, ?_⟩
    · simp [_random_name, h0, h1, hc]
    · intro x hx
      simp at hx
      subst hx
      exact pool1Of_subset _ _ hcm
    · intro x hx
      simp at hx
    · intro h2
      simp at h2
    · intro _ x hx
      simp at hx
      subst hx
      exact hcm
  · by_cases h2 : length = 2
    · obtain ⟨c1, r1, hc1, hm1⟩ := choice_ok r start_chars hs
      obtain ⟨c2, r2, hc2, hm2⟩ := choice_ok r1 (ebOf end_chars body_chars) (ebOf_ne _ _ hb)
      refine ⟨[c1, c2], r2, ?_, by simp [h2], ?_, ?_, ?_, ?_⟩
      · simp [_random_name, h0, h1, h2, hc1, hc2]
      · intro x hx
        simp at hx
        subst hx
        exact hm1
      · intro x hx
        simp at hx
      · intro _ x hx
        simp at hx
        subst hx
        exact hm2
      · intro hlen
        simp at hlen
    · have h3 : 3 ≤ length := by omega
      obtain ⟨c1, r1, hc1, hm1⟩ := choice_ok r start_chars hs
      obtain ⟨mid, r2, hmid, hmidlen, hmidmem⟩ :=
        random_string_ok body_chars hb (length - 2).toNat r1
      obtain ⟨cl, r3, hcl, hml⟩ := choice_ok r2 (ebOf end_chars body_chars) (ebOf_ne _ _ hb)
      refine ⟨c1 :: (mid ++ [cl]), r3, ?_, ?_, ?_, ?_, ?_, ?_⟩
      · simp [_random_name, h0, h1, h2, hc1, hmid, hcl]
      · simp only [List.length_cons, List.length_append, List.length_nil]
        omega
      · intro x hx
        simp at hx
        subst hx
        exact hm1
      · intro x hx
        rw [List.drop_one, List.tail_cons, List.dropLast_concat] at hx
        exact hmidmem x hx
      · intro _ x hx
        have hg : (c1 :: (mid ++ [cl])).getLast? = some cl := by
          rw [show c1 :: (mid ++ [cl]) = (c1 :: mid) ++ [cl] from rfl]
          exact List.getLast?_concat _
        rw [hg] at hx
        cases hx
        exact hml
      · intro hlen
        simp only [List.length_cons, List.length_append, List.length_nil] at hlen
        omega

theorem random_name_with_range_ok (r : RNG) (min_len max_len : Int)
    (start_chars body_chars : List Char) (end_chars : Option (List Char))
    (hmin : 0 < min_len) (hminmax : min_len ≤ max_len) (hs : start_chars ≠ [])
    (hb : body_chars ≠ []) :
    ∃ name r1, _random_name_with_range r min_len max_len start_chars body_chars end_chars =
        Except.ok (name, r1) ∧
      min_len ≤ (name.length : Int) ∧ (name.length : Int) ≤ max_len ∧
      (∀ c, name.head? = some c → c ∈ start_chars) ∧
      (∀ c ∈ (name.drop 1).dropLast, c ∈ body_chars) ∧
      (1 < name.length → ∀ c, name.getLast? = some c → c ∈ ebOf end_chars body_chars) ∧
      (name.length = 1 → ∀ c, name.head? = some c → c ∈ pool1Of start_chars end_chars) := by
  obtain ⟨L, r1, hL, hminL, hLmax⟩ := randint_ok r min_len max_len hminmax
  obtain ⟨name, r2, hname, hlen, hh, hi, hl, hone⟩ :=
    random_name_ok r1 L start_chars body_chars end_chars (by omega) hs hb
  refine ⟨name, r2, ?_, by omega, by omega, hh, hi, hl, hone⟩
  simp [_random_name_with_range, hL, hname]

theorem avoid_ok_not_pre (name forbidden : List Char) (r : RNG) (start_chars : List Char)
    (h : forbidden.isPrefixOf name = false) :
    _avoid_prefix name forbidden r start_chars = Except.ok (name, r) := by
  simp [ _avoid_prefix, h]

theorem avoid_ok_pre (name : List Char) (f0 : Char) (ftl : List Char) (r : RNG)
    (start_chars : List Char) (hs : start_chars ≠ [])
    (h : (f0 :: ftl).isPrefixOf name = true) :
    ∃ c r1, _avoid_prefix name (f0 :: ftl) r start_chars = Except.ok (c :: name.drop 1, r1) ∧
      c ∈ start_chars ∧
      ((∃ d ∈ start_chars, d ≠ f0) → c ≠ f0) := by
  have hpool : strOr (start_chars.filter (fun c => c != f0)) start_chars ≠ [] := by
    unfold strOr
    split
    · exact hs
    · assumption
  obtain ⟨c, r1, hc, hcm⟩ := choice_ok r _ hpool
  refine ⟨c, r1, ?_, ?_, ?_⟩
  · simp [ _avoid_prefix, h, hc]
  · revert hcm
    unfold strOr
    split
    · exact fun hm => hm
    · exact fun hm => List.mem_of_mem_filter hm
  · rintro ⟨d, hd, hdne⟩
    have hrep : start_chars.filter (fun c => c != f0) ≠ [] := by
      intro hemp
      have hdm : d ∈ start_chars.filter (fun c => c != f0) := by
        rw [List.mem_filter]
        exact ⟨hd, by simp [hdne]⟩
      rw [hemp] at hdm
      exact absurd hdm (List.not_mem_nil d)
    have hcm2 : c ∈ start_chars.filter (fun c => c != f0) := by
      unfold strOr at hcm
      rw [if_neg hrep] at hcm
      exact hcm
    have hbne := (List.mem_filter.mp hcm2).2
    simpa using hbne

theorem isPrefixOf_cons_false (f0 : Char) (ftl t : List Char) (c : Char) (h : c ≠ f0) :
    (f0 :: ftl).isPrefixOf (c :: t) = false := by
  simp only [List.isPrefixOf]
  rw [show (f0 == c) = false from beq_eq_false_iff_ne.mpr (Ne.symm h)]
  simp

theorem avoid_goog (name : List Char) (r : RNG) :
    ∃ out r1, _avoid_prefix name (chars ("goog")) r _LOWER = Except.ok (out, r1) ∧
      (chars ("goog")).isPrefixOf out = false := by
  have hgoog : chars ("goog") = 'g' :: chars ("oog") := rfl
  cases hv : (chars ("goog")).isPrefixOf name with
  | true =>
    rw [hgoog] at hv ⊢
    obtain ⟨c, r1, hres, hcm, hne⟩ := avoid_ok_pre name 'g' (chars ("oog")) r _LOWER (by decide) hv
    have hcne : c ≠ 'g' := hne ⟨'a', by decide, by decide⟩
    exact ⟨c :: name.drop 1, r1, hres, isPrefixOf_cons_false _ _ _ _ hcne⟩
  | false =>
    exact ⟨name, r, avoid_ok_not_pre _ _ _ _ hv, hv⟩

theorem token_hex_draw_spec (n : Nat) : ∀ r : RNG, (token_hex_draw r n).1.length = n ∧
    ∀ c ∈ (token_hex_draw r n).1, c ∈ hexAlphabet := by
  induction n with
  | zero => intro r; exact ⟨rfl, by simp [token_hex_draw]⟩
  | succ k ih =>
    intro r
    obtain ⟨hlen, hmem⟩ := ih (step r)
    constructor
    · simp [token_hex_draw, hlen]
    · intro c hc
      rcases List.mem_cons.mp hc with hc | hc
      · exact hc ▸ List.get_mem _ _ _
      · exact hmem c hc

/-! ## Claim theorems -/

/-- Claim C1, counterexample: the spec asserts that a value trivially starts
with and ends with itself, but the comparison rules pinned by the
repository's own tests reject the pair (x, x): at the concrete input
"my-bucket" both `starts_with` and `ends_with` evaluate to false (exactly
the assertions of `test_starts_with_failure` and `test_ends_with_failure`
in src/modules/tests/test_flexible_naming.py). -/
theorem starts_with_self_counterexample :
    _apply_comparison_rule (some (chars ("my-bucket"))) (some (chars ("my-bucket")))
        Rule.starts_with = false ∧
    _apply_comparison_rule (some (chars ("my-bucket"))) (some (chars ("my-bucket")))
        Rule.ends_with = false := by
  constructor <;> decide

/-- Claim C1, amended: for every string x, applying the starts_with
comparison rule with expected value x and actual value x FAILS, and so does
the ends_with rule: both rules require the reduced actual value to be a
proper extension of the reduced expected value (begin or end with it and
differ from it), as computed by `_apply_comparison_rule`. -/
theorem starts_ends_with_self_fails (x : List Char) :
    _apply_comparison_rule (some x) (some x) Rule.starts_with = false ∧
    _apply_comparison_rule (some x) (some x) Rule.ends_with = false := by
  constructor <;> simp [_apply_comparison_rule]

/-- Claim C2: for all strings actual and expected and each comparison rule,
`_apply_comparison_rule` equals the result of applying that rule to the
last slash-delimited segments of both sides (a value without a slash
reduces to itself); in particular exact_match on actual
"projects/my-project/topics/my-topic" with expected "my-topic" passes, and
ends_with with expected "my-sub" passes on actual
"projects/my-project-123/subscriptions/prefix-my-sub". -/
theorem comparison_reduces_to_last_segment :
    (∀ (a e : List Char) (rule : Rule),
      _apply_comparison_rule (some a) (some e) rule =
        _apply_comparison_rule (some (lastSegment a)) (some (lastSegment e)) rule) ∧
    _apply_comparison_rule (some (chars ("projects/my-project/topics/my-topic")))
      (some (chars ("my-topic"))) Rule.exact_match = true ∧
    _apply_comparison_rule
      (some (chars ("projects/my-project-123/subscriptions/prefix-my-sub")))
      (some (chars ("my-sub"))) Rule.ends_with = true := by
  refine ⟨?_, by decide, by decide⟩
  intro a e rule
  simp only [_apply_comparison_rule, lastSegment_idem]

/-- Claim C3: for the exact_match rule a both-missing pair passes and any
pair with exactly one side missing fails, for every concrete value of the
other side; for the starts_with and ends_with rules any missing side makes
the comparison fail, as computed by `_apply_comparison_rule`. -/
theorem missing_value_semantics :
    _apply_comparison_rule none none Rule.exact_match = true ∧
    (∀ v : List Char, _apply_comparison_rule (some v) none Rule.exact_match = false ∧
      _apply_comparison_rule none (some v) Rule.exact_match = false) ∧
    (∀ (a e : Option (List Char)), (a = none ∨ e = none) →
      _apply_comparison_rule a e Rule.starts_with = false ∧
      _apply_comparison_rule a e Rule.ends_with = false) := by
  refine ⟨rfl, fun v => ⟨rfl, rfl⟩, ?_⟩
  rintro a e (rfl | rfl)
  · cases e with
    | none => exact ⟨rfl, rfl⟩
    | some v => exact ⟨rfl, rfl⟩
  · cases a with
    | none => exact ⟨rfl, rfl⟩
    | some v => exact ⟨rfl, rfl⟩

/-- Witness for claim C3 at a concrete input: a missing actual value makes
starts_with and ends_with fail against the concrete expected "value". -/
theorem missing_value_semantics_witness :
    _apply_comparison_rule none (some (chars ("value"))) Rule.starts_with = false ∧
    _apply_comparison_rule none (some (chars ("value"))) Rule.ends_with = false :=
  (missing_value_semantics.2.2 none (some (chars ("value"))) (Or.inl rfl))

/-- Claim C4: each deterministic-mode generator (bucket_name,
service_account_id, pubsub_topic_id, secret_id) is a pure function of its
suffix: its result is independent of the ambient world (it seeds a private
stream from its namespaced key string instead), and it leaves the ambient
world untouched, so two calls with the same suffix return identical
results. -/
theorem deterministic_generators_pure (w w2 : World) (suffix : List Char) :
    ((bucket_name w suffix).2 = w ∧ (bucket_name w suffix).1 = (bucket_name w2 suffix).1) ∧
    ((service_account_id w suffix).2 = w ∧
      (service_account_id w suffix).1 = (service_account_id w2 suffix).1) ∧
    ((pubsub_topic_id w suffix).2 = w ∧
      (pubsub_topic_id w suffix).1 = (pubsub_topic_id w2 suffix).1) ∧
    ((secret_id w suffix).2 = w ∧ (secret_id w suffix).1 = (secret_id w2 suffix).1) :=
  ⟨⟨rfl, rfl⟩, ⟨rfl, rfl⟩, ⟨rfl, rfl⟩, ⟨rfl, rfl⟩⟩

/-- Claim C5: for every random source and length range with
0 < min_len <= max_len (and non-empty alphabets), `_random_name_with_range`
returns a name whose length lies in the inclusive range, whose first
character is from the start alphabet, whose interior characters are from
the body alphabet, and whose last character is from the end-or-body
alphabet when the length exceeds 1 (for length 1 the single character comes
from the start-end intersection, falling back to the start alphabet);
hence `rfc1035_name` with its defaults 6 and 18 produces a name of length
6..18 starting with a lowercase letter, with lowercase/digit/dash interior
and lowercase/digit final character. -/
theorem random_name_range_grammar :
    (∀ (r : RNG) (min_len max_len : Int) (start_chars body_chars : List Char)
      (end_chars : Option (List Char)), 0 < min_len → min_len ≤ max_len →
      start_chars ≠ [] → body_chars ≠ [] →
      ∃ name r1, _random_name_with_range r min_len max_len start_chars body_chars end_chars =
          Except.ok (name, r1) ∧
        min_len ≤ (name.length : Int) ∧ (name.length : Int) ≤ max_len ∧
        (∀ c, name.head? = some c → c ∈ start_chars) ∧
        (∀ c ∈ (name.drop 1).dropLast, c ∈ body_chars) ∧
        (1 < name.length → ∀ c, name.getLast? = some c → c ∈ ebOf end_chars body_chars) ∧
        (name.length = 1 → ∀ c, name.head? = some c → c ∈ pool1Of start_chars end_chars)) ∧
    (∀ r : RNG, ∃ name r1, rfc1035_name r 6 18 = Except.ok (name, r1) ∧
      6 ≤ (name.length : Int) ∧ (name.length : Int) ≤ 18 ∧
      (∀ c, name.head? = some c → c ∈ _LOWER) ∧
      (∀ c ∈ (name.drop 1).dropLast, c ∈ _LOWER_DIGITS_DASH) ∧
      (∀ c, name.getLast? = some c → c ∈ _LOWER_DIGITS)) := by
  constructor
  · intro r min_len max_len start_chars body_chars end_chars h1 h2 h3 h4
    exact random_name_with_range_ok r min_len max_len start_chars body_chars end_chars h1 h2 h3 h4
  · intro r
    obtain ⟨name, r1, hok, hmin, hmax, hh, hi, hl, _⟩ :=
      random_name_with_range_ok r 6 18 _LOWER _LOWER_DIGITS_DASH (some _LOWER_DIGITS)
        (by decide) (by decide) (by decide) (by decide)
    refine ⟨name, r1, hok, hmin, hmax, hh, hi, ?_⟩
    have hlen : 1 < name.length := by omega
    have heb : ebOf (some _LOWER_DIGITS) _LOWER_DIGITS_DASH = _LOWER_DIGITS := by decide
    rw [heb] at hl
    exact hl hlen

/-- Witness for claim C5 at a concrete stream and the rfc1035 range. -/
theorem random_name_range_grammar_witness :
    ∃ name r1, _random_name_with_range (_rng_from_seed (chars ("w"))) 6 18 _LOWER
        _LOWER_DIGITS_DASH (some _LOWER_DIGITS) = Except.ok (name, r1) ∧
      6 ≤ (name.length : Int) ∧ (name.length : Int) ≤ 18 ∧
      (∀ c, name.head? = some c → c ∈ _LOWER) ∧
      (∀ c ∈ (name.drop 1).dropLast, c ∈ _LOWER_DIGITS_DASH) ∧
      (1 < name.length → ∀ c, name.getLast? = some c →
        c ∈ ebOf (some _LOWER_DIGITS) _LOWER_DIGITS_DASH) ∧
      (name.length = 1 → ∀ c, name.head? = some c → c ∈ pool1Of _LOWER (some _LOWER_DIGITS)) :=
  random_name_range_grammar.1 (_rng_from_seed (chars ("w"))) 6 18 _LOWER _LOWER_DIGITS_DASH
    (some _LOWER_DIGITS) (by decide) (by decide) (by decide) (by decide)

/-- Claim C6: for every non-positive length, `_random_name` raises (returns
the `ValueError` "length must be positive") and never returns a string,
for every stream and alphabets. -/
theorem random_name_nonpositive_length_error (r : RNG) (length : Int)
    (start_chars body_chars : List Char) (end_chars : Option (List Char))
    (h : length ≤ 0) :
    _random_name r length start_chars body_chars end_chars =
      Except.error ("length must be positive") := by
  unfold _random_name
  rw [if_pos h]

/-- Witness for claim C6 at length 0. -/
theorem random_name_nonpositive_length_error_witness :
    (0 : Int) ≤ 0 ∧ _random_name (_rng_from_seed (chars ("w"))) 0 _LOWER _LOWER_DIGITS_DASH
        (some _LOWER_DIGITS) = Except.error ("length must be positive") :=
  ⟨le_refl 0, random_name_nonpositive_length_error (_rng_from_seed (chars ("w"))) 0 _LOWER
    _LOWER_DIGITS_DASH (some _LOWER_DIGITS) (le_refl 0)⟩

/-- Claim C7, counterexample: the claim quantifies over every forbidden
prefix and start alphabet, but with the empty forbidden prefix the code
raises an IndexError (it indexes `forbidden_prefix[0]` after the
always-true `startswith("")`), and with an empty start alphabet and a
matching name it raises an IndexError from `rng.choice([])`; in neither
case is the claimed string returned. -/
theorem avoid_claim_counterexample :
    _avoid_prefix (chars ("abc")) [] (_rng_from_seed (chars ("s"))) (chars ("ab")) =
      Except.error ("string index out of range") ∧
    _avoid_prefix (chars ("googx")) (chars ("goog")) (_rng_from_seed (chars ("s"))) [] =
      Except.error ("Cannot choose from an empty sequence") := by
  constructor <;> rfl

/-- Claim C7, amended: for every name, NON-EMPTY forbidden prefix, random
source, and NON-EMPTY start alphabet: if the name does not begin with the
forbidden prefix it is returned unchanged; if it does begin with it, the
returned string has the same length, its characters after the first are
the original characters after the first, its first character is drawn from
the start alphabet, and whenever the start alphabet contains a character
different from the forbidden prefix's first character, the new first
character differs from it, so the result no longer begins with the
forbidden prefix. -/
theorem avoid_forbidden_start_amended (name : List Char) (f0 : Char) (ftl : List Char)
    (r : RNG) (start_chars : List Char) (hs : start_chars ≠ []) :
    ((f0 :: ftl).isPrefixOf name = false →
      _avoid_prefix name (f0 :: ftl) r start_chars = Except.ok (name, r)) ∧
    ((f0 :: ftl).isPrefixOf name = true →
      ∃ c r1, _avoid_prefix name (f0 :: ftl) r start_chars = Except.ok (c :: name.drop 1, r1) ∧
        c ∈ start_chars ∧ (c :: name.drop 1).length = name.length ∧
        (c :: name.drop 1).drop 1 = name.drop 1 ∧
        ((∃ d ∈ start_chars, d ≠ f0) →
          c ≠ f0 ∧ (f0 :: ftl).isPrefixOf (c :: name.drop 1) = false)) := by
  constructor
  · exact avoid_ok_not_pre name (f0 :: ftl) r start_chars
  · intro hp
    obtain ⟨c, r1, hres, hcm, hne⟩ := avoid_ok_pre name f0 ftl r start_chars hs hp
    have hname_ne : name ≠ [] := by
      intro hemp
      rw [hemp] at hp
      simp [List.isPrefixOf] at hp
    refine ⟨c, r1, hres, hcm, ?_, rfl, ?_⟩
    · cases name with
      | nil => exact absurd rfl hname_ne
      | cons n0 ntl => simp
    · intro hex
      have hcne := hne hex
      exact ⟨hcne, isPrefixOf_cons_false _ _ _ _ hcne⟩

/-- Witness for the amended claim C7: a name that begins with the reserved
prefix "goog" gets its first character replaced. -/
theorem avoid_forbidden_start_amended_witness :
    ∃ c r1, _avoid_prefix (chars ("googx")) ('g' :: chars ("oog")) (_rng_from_seed (chars ("s")))
        _LOWER = Except.ok (c :: (chars ("googx")).drop 1, r1) ∧
      c ∈ _LOWER ∧ (c :: (chars ("googx")).drop 1).length = (chars ("googx")).length ∧
      (c :: (chars ("googx")).drop 1).drop 1 = (chars ("googx")).drop 1 ∧
      ((∃ d ∈ _LOWER, d ≠ 'g') →
        c ≠ 'g' ∧ ('g' :: chars ("oog")).isPrefixOf (c :: (chars ("googx")).drop 1) = false) :=
  (avoid_forbidden_start_amended (chars ("googx")) 'g' (chars ("oog"))
    (_rng_from_seed (chars ("s"))) _LOWER (by decide)).2 (by decide)

/-- Claim C8: for every template with non-empty `naming_rules` and every
stream, `pick_naming_rule` returns one element of the template's
`naming_rules`, and identically seeded streams select the same rule. -/
theorem pick_naming_rule_spec (t : ResourceTemplate) (r : RNG)
    (h : t.naming_rules ≠ []) :
    ∃ rule r1, pick_naming_rule t r = Except.ok (rule, r1) ∧ rule ∈ t.naming_rules ∧
      (∀ seed : List Char,
        pick_naming_rule t (_rng_from_seed seed) = pick_naming_rule t (_rng_from_seed seed)) := by
  obtain ⟨rule, r1, hres, hm⟩ := choice_ok r t.naming_rules h
  exact ⟨rule, r1, hres, hm, fun _ => rfl⟩

/-- Witness for claim C8 at the service-account template of
src/modules/generation/terraform/providers/gcp/resources/service_account.py. -/
theorem pick_naming_rule_spec_witness :
    ∃ rule r1, pick_naming_rule service_account_template (_rng_from_seed (chars ("42"))) =
        Except.ok (rule, r1) ∧ rule ∈ service_account_template.naming_rules ∧
      (∀ seed : List Char, pick_naming_rule service_account_template (_rng_from_seed seed) =
        pick_naming_rule service_account_template (_rng_from_seed seed)) :=
  pick_naming_rule_spec service_account_template (_rng_from_seed (chars ("42"))) (by decide)

theorem pubsub_topic_id_result_goog (suffix : List Char) :
    ∃ name, pubsub_topic_id_result suffix = Except.ok name ∧
      (chars ("goog")).isPrefixOf name = false := by
  obtain ⟨raw, r1, hok, _, _, _, _, _, _⟩ :=
    random_name_with_range_ok (_rng_from_seed (chars ("pubsub-topic:") ++ suffix)) 6 20
      _LOWER _PUBSUB_BODY (some _LOWER_DIGITS) (by decide) (by decide) (by decide) (by decide)
  obtain ⟨out, r2, havoid, hpre⟩ := avoid_goog raw r1
  refine ⟨out, ?_, hpre⟩
  show exmap2 (_random_name_with_range (_rng_from_seed (chars ("pubsub-topic:") ++ suffix))
      6 20 _LOWER _PUBSUB_BODY (some _LOWER_DIGITS))
    (fun name r1 => exfst ( _avoid_prefix name (chars ("goog")) r1 _LOWER)) = Except.ok out
  rw [hok]
  dsimp only [exmap2]
  rw [havoid]
  rfl

theorem pubsub_subscription_id_result_goog (suffix : List Char) :
    ∃ name, pubsub_subscription_id_result suffix = Except.ok name ∧
      (chars ("goog")).isPrefixOf name = false := by
  obtain ⟨raw, r1, hok, _, _, _, _, _, _⟩ :=
    random_name_with_range_ok (_rng_from_seed (chars ("pubsub-subscription:") ++ suffix)) 6 20
      _LOWER _PUBSUB_BODY (some _LOWER_DIGITS) (by decide) (by decide) (by decide) (by decide)
  obtain ⟨out, r2, havoid, hpre⟩ := avoid_goog raw r1
  refine ⟨out, ?_, hpre⟩
  show exmap2 (_random_name_with_range (_rng_from_seed (chars ("pubsub-subscription:") ++ suffix))
      6 20 _LOWER _PUBSUB_BODY (some _LOWER_DIGITS))
    (fun name r1 => exfst ( _avoid_prefix name (chars ("goog")) r1 _LOWER)) = Except.ok out
  rw [hok]
  dsimp only [exmap2]
  rw [havoid]
  rfl

/-- Claim C9: for every suffix, `pubsub_topic_id` and
`pubsub_subscription_id` return a name that does not begin with the
reserved prefix "goog": whenever the raw generated name starts with
"goog", its first character is replaced by a lowercase letter other than
the letter g, which always exists in the lowercase alphabet. -/
theorem pubsub_ids_avoid_goog (w : World) (suffix : List Char) :
    (∃ name, pubsub_topic_id w suffix = (Except.ok name, w) ∧
      (chars ("goog")).isPrefixOf name = false) ∧
    (∃ name, pubsub_subscription_id w suffix = (Except.ok name, w) ∧
      (chars ("goog")).isPrefixOf name = false) := by
  obtain ⟨n1, h1, p1⟩ := pubsub_topic_id_result_goog suffix
  obtain ⟨n2, h2, p2⟩ := pubsub_subscription_id_result_goog suffix
  refine ⟨⟨n1, ?_, p1⟩, ⟨n2, ?_, p2⟩⟩
  · show (pubsub_topic_id_result suffix, w) = (Except.ok n1, w)
    rw [h1]
  · show (pubsub_subscription_id_result suffix, w) = (Except.ok n2, w)
    rw [h2]

/-- Claim C10: for every integer length, `new_suffix` returns without
raising a non-empty lowercase-hexadecimal string of exactly
2 * max(1, floor(length / 2)) characters; in particular length 6 yields 6
characters, and 0, 1 and negative arguments yield 2 characters. -/
theorem new_suffix_length_spec (w : World) (length : Int) :
    ((new_suffix w length).1.length : Int) = 2 * max 1 (Int.fdiv length 2) ∧
    (new_suffix w length).1 ≠ [] ∧
    (∀ c ∈ (new_suffix w length).1, c ∈ hexAlphabet) ∧
    (new_suffix w 6).1.length = 6 ∧ (new_suffix w 0).1.length = 2 ∧
    (new_suffix w 1).1.length = 2 ∧ (new_suffix w (-5)).1.length = 2 := by
  have hgen : ∀ n : Int, ((new_suffix w n).1.length : Int) = 2 * max 1 (Int.fdiv n 2) ∧
      ∀ c ∈ (new_suffix w n).1, c ∈ hexAlphabet := by
    intro n
    obtain ⟨hlen, hmem⟩ := token_hex_draw_spec (2 * (max 1 (Int.fdiv n 2)).toNat) w.sys
    have h1 : (0 : Int) ≤ max 1 (Int.fdiv n 2) := le_trans (by omega) (le_max_left _ _)
    constructor
    · rw [show (new_suffix w n).1 =
        (token_hex_draw w.sys (2 * (max 1 (Int.fdiv n 2)).toNat)).1 from rfl]
      rw [hlen]
      push_cast
      rw [Int.toNat_of_nonneg h1]
    · intro c hc
      exact hmem c hc
  obtain ⟨hA, hB⟩ := hgen length
  have h1 : (1 : Int) ≤ max 1 (Int.fdiv length 2) := le_max_left _ _
  refine ⟨hA, ?_, hB, ?_, ?_, ?_, ?_⟩
  · intro hemp
    rw [hemp] at hA
    simp at hA
    omega
  · have h6 := (hgen 6).1
    have hv : (2 * max 1 (Int.fdiv 6 2) : Int) = 6 := by decide
    omega
  · have h0 := (hgen 0).1
    have hv : (2 * max 1 (Int.fdiv 0 2) : Int) = 2 := by decide
    omega
  · have hone := (hgen 1).1
    have hv : (2 * max 1 (Int.fdiv 1 2) : Int) = 2 := by decide
    omega
  · have hm5 := (hgen (-5)).1
    have hv : (2 * max 1 (Int.fdiv (-5) 2) : Int) = 2 := by decide
    omega
